import Mathlib

/-!
Verification of the contiguous-container shadow-annotation protocol declared in
`include/sanitizer/common_interface_defs.h` (`__sanitizer_annotate_contiguous_container`
and `__sanitizer_verify_contiguous_container`).

The repository ships only the public header with the documented contract; the
algorithm itself lives outside the shipped sources.  The Annotator and Verifier
are therefore modelled here from the specification: a region `[beg, end)` is
divided into 8-byte granules, each granule carries a state encoded as the count
of its leading valid bytes (`8` = fully valid, `0` = fully invalid, `0 < k < 8`
= partially valid with `k` live bytes), and the shadow table is a mapping from
granule index to that count.
-/

namespace SanitizerContainer

/-- The external shadow table, as a total map from granule index
(byte address divided by 8) to the granule state, encoded as the number of
leading valid bytes of the granule (0 to 8). -/
abbrev Shadow := Nat → Nat

/-- The granule state the Annotator's update rule assigns to granule `g`
for boundary `mid`: `8` (fully valid) for a granule fully inside the valid
range, `0` (fully invalid) for a granule fully inside the reserved range,
and the count `mid - 8*g` of live bytes for the granule straddling `mid`. -/
def granuleVal (mid g : Nat) : Nat :=
  if 8 * g + 8 ≤ mid then 8
  else if mid ≤ 8 * g then 0
  else mid - 8 * g

/-- Byte `a` of real memory reads as valid when its offset inside its granule
is below the granule's leading-valid-byte count. -/
def byteValid (sh : Shadow) (a : Nat) : Prop :=
  a % 8 < sh (a / 8)

instance (sh : Shadow) (a : Nat) : Decidable (byteValid sh a) := by
  unfold byteValid; infer_instance

/-- Modelled from the spec: the Annotator
`__sanitizer_annotate_contiguous_container(beg, end, old_mid, new_mid)`,
whose implementation is absent from the shipped sources (only the header
contract is present).  Following the contract, only granules lying between
`min old_mid new_mid` (rounded down to a granule boundary) and
`max old_mid new_mid` are rewritten; each rewritten granule receives the
state dictated by the new boundary `new_mid`; all other shadow entries are
left untouched.  `beg` and `endp` are the region bounds of the contract
(the preconditions `beg ≤ old_mid ≤ endp`, `beg ≤ new_mid ≤ endp` keep the
rewritten window inside the region's granules). -/
def annotate (beg endp oldMid newMid : Nat) (sh : Shadow) : Shadow :=
  fun g =>
    if min oldMid newMid / 8 ≤ g ∧ 8 * g < max oldMid newMid then
      granuleVal newMid g
    else sh g

/-- The granule indices of the granules overlapping the region `[beg, endp)`,
for an 8-aligned `beg`: all `g` with `beg ≤ 8*g < endp`. -/
def regionGranules (beg endp : Nat) : List Nat :=
  (List.range ((endp + 7) / 8)).filter (fun g => beg ≤ 8 * g)

/-- Modelled from the spec: the Verifier
`__sanitizer_verify_contiguous_container(beg, mid, end)`, whose
implementation is absent from the shipped sources.  It is modelled in its
full-verification form sanctioned by the spec: every granule of the region
is read and compared with the state the Annotator's update rule produces
for boundary `mid`. -/
def verify (beg mid endp : Nat) (sh : Shadow) : Bool :=
  (regionGranules beg endp).all (fun g => sh g == granuleVal mid g)

/-- The shadow table reflects boundary `mid` on region `[beg, endp)`:
every granule of the region holds exactly the state the Annotator's update
rule assigns it for boundary `mid`. -/
def Tracked (beg endp mid : Nat) (sh : Shadow) : Prop :=
  ∀ g, beg ≤ 8 * g → 8 * g < endp → sh g = granuleVal mid g

/-- The spec's description of a properly annotated region, stated in the
spec's own terms: granules fully inside `[beg, mid)` are fully valid,
granules at or after `mid` are fully invalid, and the granule straddling
`mid` carries a partial count equal to `mid mod 8`. -/
def SpecBoundaryState (beg endp mid : Nat) (sh : Shadow) : Prop :=
  ∀ g, beg ≤ 8 * g → 8 * g < endp →
    (8 * g + 8 ≤ mid → sh g = 8) ∧
    (mid ≤ 8 * g → sh g = 0) ∧
    (8 * g < mid → mid < 8 * g + 8 → sh g = mid % 8)

/-- A sequence of Annotator calls on one region: each call supplies the
previous boundary as `old_mid` and the next element of the list as
`new_mid`, as the container's grow/shrink protocol does. -/
def annotateSeq (beg endp : Nat) : Nat → List Nat → Shadow → Shadow
  | _, [], sh => sh
  | cur, m :: ms, sh => annotateSeq beg endp m ms (annotate beg endp cur m sh)

/-- The boundary in force after a sequence of Annotator calls. -/
def finalMid : Nat → List Nat → Nat
  | cur, [] => cur
  | _, m :: ms => finalMid m ms

/-- An operation issued against the external shadow table: read a granule's
state, or write a granule's state. -/
inductive TableOp : Type where
  | read : Nat → TableOp
  | write : Nat → Nat → TableOp

/-- The effect of a list of shadow-table operations on the shadow table:
reads leave it unchanged, writes update one granule entry. -/
def runOps : List TableOp → Shadow → Shadow
  | [], sh => sh
  | TableOp.read _ :: rest, sh => runOps rest sh
  | TableOp.write g v :: rest, sh =>
      runOps rest (fun x => if x = g then v else sh x)

/-- Modelled from the spec: the Verifier's interaction with the shadow
table.  The Verifier issues only read_granule operations, one per granule
it inspects; it never issues a write. -/
def verifyOps (beg endp : Nat) : List TableOp :=
  (regionGranules beg endp).map TableOp.read

theorem mem_regionGranules (beg endp g : Nat) :
    g ∈ regionGranules beg endp ↔ beg ≤ 8 * g ∧ 8 * g < endp := by
  unfold regionGranules
  rw [List.mem_filter, List.mem_range, decide_eq_true_iff]
  constructor
  · rintro ⟨hlt, hle⟩
    refine ⟨hle, ?_⟩
    omega
  · rintro ⟨hle, hlt⟩
    refine ⟨?_, hle⟩
    omega

theorem verify_eq_true_iff_tracked (beg mid endp : Nat) (sh : Shadow) :
    verify beg mid endp sh = true ↔ Tracked beg endp mid sh := by
  unfold verify Tracked
  rw [List.all_eq_true]
  constructor
  · intro h g h1 h2
    have := h g ((mem_regionGranules beg endp g).mpr ⟨h1, h2⟩)
    exact eq_of_beq this
  · intro h g hg
    rcases (mem_regionGranules beg endp g).mp hg with ⟨h1, h2⟩
    exact beq_iff_eq.mpr (h g h1 h2)

/-- Core preservation lemma: if the shadow reflects boundary `oldMid` on the
region, then after `annotate` it reflects boundary `newMid`. -/
theorem annotate_tracked (beg endp oldMid newMid : Nat) (sh : Shadow)
    (ht : Tracked beg endp oldMid sh) :
    Tracked beg endp newMid (annotate beg endp oldMid newMid sh) := by
  intro g hg1 hg2
  unfold annotate
  by_cases hw : min oldMid newMid / 8 ≤ g ∧ 8 * g < max oldMid newMid
  · rw [if_pos hw]
  · rw [if_neg hw, ht g hg1 hg2]
    rcases not_and_or.mp hw with hw2 | hw2
    · -- the granule lies strictly before both boundaries: both states are fully valid
      unfold granuleVal
      split_ifs <;> omega
    · -- the granule lies at or after both boundaries: both states are fully invalid
      unfold granuleVal
      split_ifs <;> omega

/-- The all-valid shadow reflects the initial boundary `mid = end` on the
example region `[0, 24)`. -/
theorem tracked_const8 : Tracked 0 24 24 (fun _ => 8) := by
  intro g _ h2
  unfold granuleVal
  rw [if_pos (by omega)]

/-- C8: In the concrete region `beg = 0`, `end = 24` with `old_mid = 24` and
`new_mid = 10` (starting from the all-valid initial state), after
`annotate(0,24,24,10)` granule 0 is fully valid, granule 1 is partially valid
with count 2, granule 2 is fully invalid; `verify(0,10,24)` returns true,
`verify(0,9,24)` returns false, and `verify(0,16,24)` returns false. -/
theorem scenario_region24 :
    annotate 0 24 24 10 (fun _ => 8) 0 = 8 ∧
    annotate 0 24 24 10 (fun _ => 8) 1 = 2 ∧
    annotate 0 24 24 10 (fun _ => 8) 2 = 0 ∧
    verify 0 10 24 (annotate 0 24 24 10 (fun _ => 8)) = true ∧
    verify 0 9 24 (annotate 0 24 24 10 (fun _ => 8)) = false ∧
    verify 0 16 24 (annotate 0 24 24 10 (fun _ => 8)) = false := by
  decide

theorem tracked_iff_specBoundary (beg endp mid : Nat) (sh : Shadow) :
    Tracked beg endp mid sh ↔ SpecBoundaryState beg endp mid sh := by
  unfold Tracked SpecBoundaryState
  constructor
  · intro h g h1 h2
    rw [h g h1 h2]
    refine ⟨fun hc => ?_, fun hc => ?_, fun hc1 hc2 => ?_⟩ <;>
      (unfold granuleVal; split_ifs <;> omega)
  · intro h g h1 h2
    rcases h g h1 h2 with ⟨ha, hb, hc⟩
    unfold granuleVal
    split_ifs with w1 w2
    · exact ha w1
    · exact hb w2
    · have := hc (by omega) (by omega)
      omega

/-- C1: For every region satisfying the alignment invariant whose shadow
reflects the old boundary, after `annotate(beg, end, old_mid, new_mid)`
every byte of `[beg, new_mid)` reads as valid and every byte of
`[new_mid, end)` reads as invalid. -/
theorem annotate_validity (beg endp oldMid newMid : Nat) (sh : Shadow)
    (hal : beg % 8 = 0)
    (h1 : beg ≤ oldMid) (h2 : oldMid ≤ endp)
    (h3 : beg ≤ newMid) (h4 : newMid ≤ endp)
    (ht : Tracked beg endp oldMid sh) :
    (∀ a, beg ≤ a → a < newMid → byteValid (annotate beg endp oldMid newMid sh) a) ∧
    (∀ a, newMid ≤ a → a < endp → ¬ byteValid (annotate beg endp oldMid newMid sh) a) := by
  have ht2 := annotate_tracked beg endp oldMid newMid sh ht
  constructor
  · intro a ha1 ha2
    have hg := ht2 (a / 8) (by omega) (by omega)
    unfold byteValid
    rw [hg]
    unfold granuleVal
    split_ifs <;> omega
  · intro a ha1 ha2
    have hg := ht2 (a / 8) (by omega) (by omega)
    unfold byteValid
    rw [hg]
    unfold granuleVal
    split_ifs <;> omega

/-- Witness for C1 at region `[0, 24)`, `old_mid = 24`, `new_mid = 10`:
byte 9 reads as valid and byte 10 reads as invalid after the call. -/
theorem annotate_validity_witness :
    byteValid (annotate 0 24 24 10 (fun _ => 8)) 9 ∧
    ¬ byteValid (annotate 0 24 24 10 (fun _ => 8)) 10 :=
  ⟨(annotate_validity 0 24 24 10 (fun _ => 8) rfl (by decide) (by decide)
      (by decide) (by decide) tracked_const8).1 9 (by decide) (by decide),
   (annotate_validity 0 24 24 10 (fun _ => 8) rfl (by decide) (by decide)
      (by decide) (by decide) tracked_const8).2 10 (by decide) (by decide)⟩

/-- C2: `verify(beg, mid, end)` returns true iff the shadow table is exactly
in the state the Annotator produces for boundary `mid` (fully valid before,
fully invalid after, the straddling granule holding `mid mod 8`); in
particular it returns false whenever the straddling granule's partial count
differs from `mid mod 8`. -/
theorem verify_iff_annotated (beg mid endp : Nat) (sh : Shadow)
    (h1 : beg ≤ mid) (h2 : mid ≤ endp) :
    (verify beg mid endp sh = true ↔ SpecBoundaryState beg endp mid sh) ∧
    (∀ g, beg ≤ 8 * g → 8 * g < endp → 8 * g < mid → mid < 8 * g + 8 →
      sh g ≠ mid % 8 → verify beg mid endp sh = false) := by
  constructor
  · rw [verify_eq_true_iff_tracked]
    exact tracked_iff_specBoundary beg endp mid sh
  · intro g hg1 hg2 hg3 hg4 hne
    rcases Bool.eq_false_or_eq_true (verify beg mid endp sh) with h | h
    · exfalso
      have hval := (verify_eq_true_iff_tracked beg mid endp sh).mp h g hg1 hg2
      unfold granuleVal at hval
      split_ifs at hval <;> omega
    · exact h

/-- Witness for C2: with the shadow of the `[0, 24)` scenario (straddling
granule 1 holds count 2), `verify` at `mid = 9` (which would need count 1)
returns false. -/
theorem verify_iff_annotated_witness :
    verify 0 9 24 (annotate 0 24 24 10 (fun _ => 8)) = false :=
  (verify_iff_annotated 0 9 24 (annotate 0 24 24 10 (fun _ => 8))
      (by decide) (by decide)).2 1
    (by decide) (by decide) (by decide) (by decide) (by decide)

/-- C3: after `annotate`, each granule fully inside `[beg, new_mid)` is
fully valid, each granule fully inside `[new_mid, end)` is fully invalid,
when `new_mid` is not 8-aligned the granule containing it holds exactly
`new_mid mod 8` live bytes, and when `new_mid` is 8-aligned every granule
of the region is fully valid or fully invalid (no partial granule). -/
theorem annotate_granule_rule (beg endp oldMid newMid : Nat) (sh : Shadow)
    (hal : beg % 8 = 0)
    (h1 : beg ≤ oldMid) (h2 : oldMid ≤ endp)
    (h3 : beg ≤ newMid) (h4 : newMid ≤ endp)
    (ht : Tracked beg endp oldMid sh) :
    (∀ g, beg ≤ 8 * g → 8 * g + 8 ≤ newMid →
      annotate beg endp oldMid newMid sh g = 8) ∧
    (∀ g, newMid ≤ 8 * g → 8 * g < endp →
      annotate beg endp oldMid newMid sh g = 0) ∧
    (newMid % 8 ≠ 0 →
      annotate beg endp oldMid newMid sh (newMid / 8) = newMid % 8) ∧
    (newMid % 8 = 0 → ∀ g, beg ≤ 8 * g → 8 * g < endp →
      annotate beg endp oldMid newMid sh g = 8 ∨
      annotate beg endp oldMid newMid sh g = 0) := by
  have ht2 := annotate_tracked beg endp oldMid newMid sh ht
  refine ⟨?_, ?_, ?_, ?_⟩
  · intro g hg1 hg2
    rw [ht2 g hg1 (by omega)]
    unfold granuleVal
    split_ifs <;> omega
  · intro g hg1 hg2
    rw [ht2 g (by omega) hg2]
    unfold granuleVal
    split_ifs <;> omega
  · intro hnal
    rw [ht2 (newMid / 8) (by omega) (by omega)]
    unfold granuleVal
    split_ifs <;> omega
  · intro hdvd g hg1 hg2
    rw [ht2 g hg1 hg2]
    unfold granuleVal
    split_ifs <;> omega

/-- Witness for C3 at region `[0, 24)`, `old_mid = 24`, `new_mid = 10`:
granule 0 is fully valid and the granule containing 10 holds `10 mod 8 = 2`
live bytes. -/
theorem annotate_granule_rule_witness :
    annotate 0 24 24 10 (fun _ => 8) 0 = 8 ∧
    annotate 0 24 24 10 (fun _ => 8) (10 / 8) = 10 % 8 :=
  ⟨(annotate_granule_rule 0 24 24 10 (fun _ => 8) rfl (by decide) (by decide)
      (by decide) (by decide) tracked_const8).1 0 (by decide) (by decide),
   (annotate_granule_rule 0 24 24 10 (fun _ => 8) rfl (by decide) (by decide)
      (by decide) (by decide) tracked_const8).2.2.1 (by decide)⟩

theorem annotateSeq_tracked (beg endp : Nat) (cur : Nat) (ms : List Nat)
    (sh : Shadow) (ht : Tracked beg endp cur sh) :
    Tracked beg endp (finalMid cur ms) (annotateSeq beg endp cur ms sh) := by
  induction ms generalizing cur sh with
  | nil => exact ht
  | cons m ms ih =>
      exact ih m (annotate beg endp cur m sh)
        (annotate_tracked beg endp cur m sh ht)

/-- C4: every shadow state reachable from a tracked initial state by a
sequence of Annotator calls still reflects the current boundary: each call
takes `Tracked m` to `Tracked mNew`, and in the resulting state every
granule of the region is fully valid, fully invalid, or is the single
granule containing the current boundary with count `mid mod 8`. -/
theorem annotate_seq_invariant (beg endp cur : Nat) (ms : List Nat)
    (sh : Shadow)
    (hal : beg % 8 = 0)
    (hcur : beg ≤ cur ∧ cur ≤ endp)
    (hms : ∀ m ∈ ms, beg ≤ m ∧ m ≤ endp)
    (ht : Tracked beg endp cur sh) :
    Tracked beg endp (finalMid cur ms) (annotateSeq beg endp cur ms sh) ∧
    (∀ g, beg ≤ 8 * g → 8 * g < endp →
      annotateSeq beg endp cur ms sh g = 8 ∨
      annotateSeq beg endp cur ms sh g = 0 ∨
      (g = finalMid cur ms / 8 ∧
        annotateSeq beg endp cur ms sh g = finalMid cur ms % 8)) ∧
    (∀ m mNew sh2, Tracked beg endp m sh2 →
      Tracked beg endp mNew (annotate beg endp m mNew sh2)) := by
  have htf := annotateSeq_tracked beg endp cur ms sh ht
  refine ⟨htf, ?_, fun m mNew sh2 h => annotate_tracked beg endp m mNew sh2 h⟩
  intro g hg1 hg2
  rw [htf g hg1 hg2]
  unfold granuleVal
  split_ifs with w1 w2
  · left; rfl
  · right; left; rfl
  · right; right
    exact ⟨by omega, by omega⟩

/-- Witness for C4 on region `[0, 24)`, calls moving the boundary
`24 -> 10 -> 5`: granule 0 ends up as the partial granule of boundary 5. -/
theorem annotate_seq_invariant_witness :
    annotateSeq 0 24 24 [10, 5] (fun _ => 8) 0 = 8 ∨
    annotateSeq 0 24 24 [10, 5] (fun _ => 8) 0 = 0 ∨
    (0 = finalMid 24 [10, 5] / 8 ∧
      annotateSeq 0 24 24 [10, 5] (fun _ => 8) 0 = finalMid 24 [10, 5] % 8) :=
  (annotate_seq_invariant 0 24 24 [10, 5] (fun _ => 8) rfl (by decide)
      (by decide) tracked_const8).2.1 0 (by decide) (by decide)

/-- C5: moving the boundary from `a` to `b` and back to `a` restores the
exact shadow state from before the first call, and with it every `verify`
result. -/
theorem annotate_symm (beg endp a b : Nat) (sh : Shadow)
    (hal : beg % 8 = 0)
    (ha1 : beg ≤ a) (ha2 : a ≤ endp) (hb1 : beg ≤ b) (hb2 : b ≤ endp)
    (ht : Tracked beg endp a sh) :
    annotate beg endp b a (annotate beg endp a b sh) = sh ∧
    (∀ m, verify beg m endp (annotate beg endp b a (annotate beg endp a b sh)) =
      verify beg m endp sh) := by
  have he : annotate beg endp b a (annotate beg endp a b sh) = sh := by
    funext g
    simp only [annotate]
    rw [Nat.min_comm b a, Nat.max_comm b a]
    by_cases h : min a b / 8 ≤ g ∧ 8 * g < max a b
    · rw [if_pos h]
      exact (ht g (by omega) (by omega)).symm
    · rw [if_neg h, if_neg h]
  exact ⟨he, fun m => by rw [he]⟩

/-- Witness for C5 on region `[0, 24)`: moving the boundary from 24 to 10
and back to 24 restores the all-valid shadow. -/
theorem annotate_symm_witness :
    annotate 0 24 10 24 (annotate 0 24 24 10 (fun _ => 8)) = (fun _ => 8) :=
  (annotate_symm 0 24 24 10 (fun _ => 8) rfl (by decide) (by decide)
      (by decide) (by decide) tracked_const8).1

/-- C6: `annotate` writes only shadow entries of granules lying between
`min(old_mid, new_mid)` and `max(old_mid, new_mid)`: a granule entirely
before both boundaries or entirely after both keeps its prior state, and a
granule entirely outside `[beg, end)` is never written. -/
theorem annotate_frame (beg endp oldMid newMid g : Nat) (sh : Shadow)
    (h1 : beg ≤ oldMid) (h2 : oldMid ≤ endp)
    (h3 : beg ≤ newMid) (h4 : newMid ≤ endp) :
    (8 * g + 8 ≤ min oldMid newMid ∨ max oldMid newMid ≤ 8 * g →
      annotate beg endp oldMid newMid sh g = sh g) ∧
    (8 * g + 8 ≤ beg ∨ endp ≤ 8 * g →
      annotate beg endp oldMid newMid sh g = sh g) := by
  constructor
  · intro h
    unfold annotate
    have hc : ¬ (min oldMid newMid / 8 ≤ g ∧ 8 * g < max oldMid newMid) := by
      omega
    rw [if_neg hc]
  · intro h
    unfold annotate
    have hc : ¬ (min oldMid newMid / 8 ≤ g ∧ 8 * g < max oldMid newMid) := by
      omega
    rw [if_neg hc]

/-- Witness for C6: with `old_mid = 24`, `new_mid = 10` on `[0, 24)`,
granule 0 lies entirely before both boundaries and keeps its prior entry;
granule 5 lies entirely outside the region and keeps its prior entry. -/
theorem annotate_frame_witness :
    annotate 0 24 24 10 (fun _ => 7) 0 = 7 ∧
    annotate 0 24 24 10 (fun _ => 7) 5 = 7 :=
  ⟨(annotate_frame 0 24 24 10 0 (fun _ => 7) (by decide) (by decide)
      (by decide) (by decide)).1 (by decide),
   (annotate_frame 0 24 24 10 5 (fun _ => 7) (by decide) (by decide)
      (by decide) (by decide)).2 (by decide)⟩

/-- C7: when the shadow reflects boundary `m`, the call
`annotate(beg, end, m, m)` leaves the entire shadow table unchanged, and
hence any subsequent `verify(beg, m, end)` returns the same result as
before the call. -/
theorem annotate_noop (beg endp m : Nat) (sh : Shadow)
    (hal : beg % 8 = 0) (h1 : beg ≤ m) (h2 : m ≤ endp)
    (ht : Tracked beg endp m sh) :
    annotate beg endp m m sh = sh ∧
    verify beg m endp (annotate beg endp m m sh) = verify beg m endp sh := by
  have he : annotate beg endp m m sh = sh := by
    funext g
    unfold annotate
    by_cases h : min m m / 8 ≤ g ∧ 8 * g < max m m
    · rw [if_pos h]
      exact (ht g (by omega) (by omega)).symm
    · rw [if_neg h]
  exact ⟨he, by rw [he]⟩

/-- Witness for C7 on region `[0, 24)` with boundary 10: re-annotating with
the same boundary leaves the shadow table unchanged. -/
theorem annotate_noop_witness :
    annotate 0 24 10 10 (annotate 0 24 24 10 (fun _ => 8)) =
      annotate 0 24 24 10 (fun _ => 8) :=
  (annotate_noop 0 24 10 (annotate 0 24 24 10 (fun _ => 8)) rfl (by decide)
      (by decide)
      (annotate_tracked 0 24 24 10 (fun _ => 8) tracked_const8)).1

theorem runOps_map_read (l : List Nat) (sh : Shadow) :
    runOps (l.map TableOp.read) sh = sh := by
  induction l with
  | nil => rfl
  | cons g l ih => exact ih

/-- C9: the Verifier is read-only: running the Verifier's shadow-table
operations leaves every shadow entry identical to what it was before, so
any `verify` result computed afterwards equals the one computed before. -/
theorem verify_read_only (beg mid endp : Nat) (sh : Shadow) :
    runOps (verifyOps beg endp) sh = sh ∧
    verify beg mid endp (runOps (verifyOps beg endp) sh) =
      verify beg mid endp sh := by
  have he : runOps (verifyOps beg endp) sh = sh :=
    runOps_map_read (regionGranules beg endp) sh
  exact ⟨he, by rw [he]⟩

/-- C10: boundary moves compose: annotating from `a` to `b` and then from
`b` to `c` produces exactly the shadow state of the single call annotating
from `a` to `c` — the final state depends only on the new boundary. -/
theorem annotate_comp (beg endp a b c : Nat) (sh : Shadow)
    (hal : beg % 8 = 0)
    (ha1 : beg ≤ a) (ha2 : a ≤ endp) (hb1 : beg ≤ b) (hb2 : b ≤ endp)
    (hc1 : beg ≤ c) (hc2 : c ≤ endp)
    (ht : Tracked beg endp a sh) :
    annotate beg endp b c (annotate beg endp a b sh) =
      annotate beg endp a c sh := by
  have hab := annotate_tracked beg endp a b sh ht
  have hbc := annotate_tracked beg endp b c (annotate beg endp a b sh) hab
  have hac := annotate_tracked beg endp a c sh ht
  funext g
  by_cases hreg : beg ≤ 8 * g ∧ 8 * g < endp
  · rw [hbc g hreg.1 hreg.2, hac g hreg.1 hreg.2]
  · simp only [annotate]
    have hk1 : ¬ (min b c / 8 ≤ g ∧ 8 * g < max b c) := by omega
    have hk2 : ¬ (min a b / 8 ≤ g ∧ 8 * g < max a b) := by omega
    have hk3 : ¬ (min a c / 8 ≤ g ∧ 8 * g < max a c) := by omega
    rw [if_neg hk1, if_neg hk2, if_neg hk3]

/-- Witness for C10 on region `[0, 24)`: moving the boundary `24 -> 10`
then `10 -> 5` yields the same shadow as the single move `24 -> 5`. -/
theorem annotate_comp_witness :
    annotate 0 24 10 5 (annotate 0 24 24 10 (fun _ => 8)) =
      annotate 0 24 24 5 (fun _ => 8) :=
  annotate_comp 0 24 24 10 5 (fun _ => 8) rfl (by decide) (by decide)
    (by decide) (by decide) (by decide) (by decide) tracked_const8

end SanitizerContainer
